import Mathlib

/-!
Verification of `gkmodel/model.py`: a shallow embedding over exact rationals of
the weighted least-squares solver, the `OverallModel` and `StudyModel` classes,
and the `result_to_df` exporter, together with theorems settling the spec claims.

Numeric values (observations, standard errors, covariates, group ids, row ids)
are embedded as `ℚ`; numpy arrays become lists or `Matrix (Fin n) (Fin k) ℚ`;
stateful methods become explicit state passing; fallible calls return
`Option`/`Except`.
-/

set_option maxRecDepth 8192

namespace GKModel

/-- Modelled from the spec: one row of the external observation-set collaborator
(`MRData` from mrtool): an outcome value, an outcome standard error, a group
identifier, an internal row id, and named covariate values. -/
structure DataRow where
  data_id : ℚ
  obs : ℚ
  obs_se : ℚ
  study_id : ℚ
  covs : List (String × ℚ)
deriving DecidableEq

/-- Modelled from the spec: the external observation-set collaborator (`MRData`),
an ordered collection of rows. -/
structure MRData where
  rows : List DataRow
deriving DecidableEq

/-- Outcome column (`data.obs`). -/
def MRData.obs (d : MRData) : List ℚ := d.rows.map DataRow.obs

/-- Standard-error column (`data.obs_se`). -/
def MRData.obs_se (d : MRData) : List ℚ := d.rows.map DataRow.obs_se

/-- Per-row group-identifier column (`data.study_id`). -/
def MRData.study_id (d : MRData) : List ℚ := d.rows.map DataRow.study_id

/-- Internal row-id column (`data.data_id`). -/
def MRData.data_id (d : MRData) : List ℚ := d.rows.map DataRow.data_id

/-- Modelled from the spec: distinct group identifiers of the observation set
(`data.studies`). -/
def MRData.studies (d : MRData) : List ℚ := d.study_id.dedup

/-- Modelled from the spec: covariate lookup by names returning a numeric
matrix, row-major (`data.get_covs(names)`). -/
def MRData.get_covs (d : MRData) (names : List String) : List (List ℚ) :=
  d.rows.map fun r => names.map fun nm => (r.covs.lookup nm).getD 0

/-- Modelled from the spec: stable sort of the observation set by its internal
row id (`data._sort_by_data_id()`); the mutation is made explicit by returning
the sorted observation set. -/
def MRData.sortByDataId (d : MRData) : MRData :=
  ⟨d.rows.insertionSort fun a b => a.data_id ≤ b.data_id⟩

/-- Modelled from the spec: the external covariate-specification collaborator
(`LinearCovModel` from mrtool): a name, the underlying covariate names it
consumes, the number of output columns it produces, and the observation set
last attached through its attach hook. -/
structure LinearCovModel where
  name : String
  covs : List String
  num_x_vars : ℕ
  attached : Option MRData
deriving DecidableEq

/-- Modelled from the spec: the covariate specification's attach hook
(`cov_model.attach_data(data)`); recorded as the `attached` field. -/
def LinearCovModel.attach_data (cm : LinearCovModel) (d : MRData) : LinearCovModel :=
  { cm with attached := some d }

/-- Modelled from the spec: the row of the covariate specification's column
block for one observation row (`cov_model.create_design_mat(data)[0]`, for a
linear covariate model the named covariate columns). -/
def LinearCovModel.designRow (cm : LinearCovModel) (r : DataRow) : List ℚ :=
  cm.covs.map fun nm => (r.covs.lookup nm).getD 0

/-! ### Weighted least-squares solver (`solve_ls`) -/

/-- `solve_ls(mat, obs, obs_se)`: with `v = obs_se**2`, solve
`(mat.T/v).dot(mat) β = (mat.T/v).dot(obs)` by `np.linalg.solve`, which fails
(`LinAlgError`, embedded as `none`) when the system matrix is singular and
otherwise returns the unique solution, computed here as
`det⁻¹ • adjugate *ᵥ rhs`. -/
def solve_ls {n k : ℕ} (mat : Matrix (Fin n) (Fin k) ℚ)
    (obs obs_se : Fin n → ℚ) : Option (Fin k → ℚ) :=
  let v : Fin n → ℚ := fun i => obs_se i ^ 2
  let mtv : Matrix (Fin k) (Fin n) ℚ := Matrix.of fun j i => mat i j / v i
  let A : Matrix (Fin k) (Fin k) ℚ := mtv * mat
  if A.det = 0 then none
  else some (A.det⁻¹ • A.adjugate.mulVec (mtv.mulVec obs))

/-- Number of columns of a row-major list matrix, read off the first row as
numpy reads `mat.shape[1]`. -/
def ncols (m : List (List ℚ)) : ℕ := (m.headD []).length

/-- `solve_ls` on row-major list data at explicit dimensions `n × k`. -/
def solveFin (n k : ℕ) (m : List (List ℚ)) (obs obs_se : List ℚ) :
    Option (List ℚ) :=
  (solve_ls (Matrix.of fun (i : Fin n) (j : Fin k) => (m.getD i []).getD j 0)
    (fun i : Fin n => obs.getD i 0) (fun i : Fin n => obs_se.getD i 0)).map
    List.ofFn

/-- `solve_ls` on row-major list data, as the model classes call it; the array
shape is read off the list matrix exactly as numpy reads `mat.shape`. -/
def solve_ls_list (m : List (List ℚ)) (obs obs_se : List ℚ) : Option (List ℚ) :=
  solveFin m.length (ncols m) m obs obs_se

/-- Spec-side definition (claim C1): the weight matrix `W = diag(1/sᵢ²)`. -/
def weightMatrix {n : ℕ} (obs_se : Fin n → ℚ) : Matrix (Fin n) (Fin n) ℚ :=
  Matrix.diagonal fun i => 1 / obs_se i ^ 2

/-- Spec-side definition (claim C1): the weighted normal-equations matrix
`Mᵀ W M`. -/
def normalMat {n k : ℕ} (mat : Matrix (Fin n) (Fin k) ℚ)
    (obs_se : Fin n → ℚ) : Matrix (Fin k) (Fin k) ℚ :=
  mat.transpose * weightMatrix obs_se * mat

/-- Spec-side definition (claim C1): the weighted residual sum of squares
`Σᵢ ((yᵢ − (Mβ)ᵢ)/sᵢ)²`. -/
def weightedRSS {n k : ℕ} (mat : Matrix (Fin n) (Fin k) ℚ)
    (obs obs_se : Fin n → ℚ) (β : Fin k → ℚ) : ℚ :=
  ∑ i, ((obs i - mat.mulVec β i) / obs_se i) ^ 2

/-! ### Shared numeric helpers -/

/-- Column `i` of a row-major list matrix (`soln[:, i]`). -/
def column (i : ℕ) (m : List (List ℚ)) : List ℚ := m.map fun row => row.getD i 0

/-- Dot product of two equal-length numeric rows (`row.dot(beta)`). -/
def dot (xs ys : List ℚ) : ℚ := ((xs.zip ys).map fun p => p.1 * p.2).sum

/-- Matrix–vector product, row-major (`mat.dot(soln)`). -/
def matVec (m : List (List ℚ)) (β : List ℚ) : List ℚ := m.map fun row => dot row β

/-- Row-wise dot product of two equally shaped row-major matrices
(`np.sum(mat*soln, axis=1)`). -/
def rowwiseDot (m c : List (List ℚ)) : List ℚ := (m.zip c).map fun p => dot p.1 p.2

/-- Element-wise mean of a list of equal-length vectors
(`np.mean(vs, axis=0)`). -/
def meanVec (vs : List (List ℚ)) : List ℚ :=
  match vs with
  | [] => []
  | v :: _ => (List.range v.length).map fun j =>
      ((vs.map fun w => w.getD j 0).sum) / (vs.length : ℚ)

/-- `np.quantile(xs, q)` with the default linear interpolation: sort, take
`h = q*(n-1)`, and interpolate between the neighbouring order statistics. -/
def npQuantile (xs : List ℚ) (q : ℚ) : ℚ :=
  let sorted := xs.insertionSort (· ≤ ·)
  let h := q * ((sorted.length : ℚ) - 1)
  let lo := (⌊h⌋).toNat
  let a := sorted.getD lo 0
  let b := sorted.getD (lo + 1) a
  a + (h - (lo : ℚ)) * (b - a)

/-! ### OverallModel -/

/-- State of an `OverallModel` instance: attached data, covariate
specifications, stored design matrix, fitted coefficient vector. -/
structure OverallModel where
  data : Option MRData
  cov_models : List LinearCovModel
  mat : Option (List (List ℚ))
  soln : Option (List ℚ)
deriving DecidableEq

/-- The overall design matrix: `np.hstack` of each covariate specification's
column block, expressed row-major (each data row becomes the concatenation of
the per-specification block rows). -/
def OverallModel.designMat (cms : List LinearCovModel) (d : MRData) :
    List (List ℚ) :=
  d.rows.map fun r => (cms.map fun cm => cm.designRow r).flatten

/-- `OverallModel.create_design_mat(self, data)`: resolve `data` to
`self.data` when absent, then hstack the covariate blocks; `none` embeds the
crash on a missing observation set. -/
def OverallModel.create_design_mat (s : OverallModel) (dOpt : Option MRData) :
    Option (List (List ℚ)) :=
  match dOpt.orElse fun _ => s.data with
  | none => none
  | some d => some (OverallModel.designMat s.cov_models d)

/-- `OverallModel.attach_data(self, data)`: no-op on `None`; otherwise store
the observation set, attach it to every covariate specification, and rebuild
the design matrix. -/
def OverallModel.attach_data (s : OverallModel) (dOpt : Option MRData) :
    OverallModel :=
  match dOpt with
  | none => s
  | some d =>
    let s1 := { s with
                data := some d
                cov_models := s.cov_models.map fun cm =>
                  LinearCovModel.attach_data cm d }
    { s1 with mat := s1.create_design_mat none }

/-- `OverallModel.fit_model(self)`: `ValueError` when no data is attached,
otherwise solve on the stored design matrix; `LinAlgError` from the solver
propagates. -/
def OverallModel.fit_model (s : OverallModel) : Except String OverallModel :=
  match s.data with
  | none => .error "Must attach data before fitting the model."
  | some d =>
    match s.mat with
    | none => .error "TypeError: design matrix is missing."
    | some m =>
      match solve_ls_list m d.obs d.obs_se with
      | none => .error "LinAlgError: Singular matrix."
      | some β => .ok { s with soln := some β }

/-- `OverallModel.predict(self, data)`: resolve `data`, rebuild the design
matrix against it, and return `mat.dot(self.soln)`. -/
def OverallModel.predict (s : OverallModel) (dOpt : Option MRData) :
    Option (List ℚ) := do
  let d ← dOpt.orElse fun _ => s.data
  let m ← s.create_design_mat (some d)
  let β ← s.soln
  pure (matVec m β)

/-- `OverallModel.write_soln(self, path)`: expand coefficient names as
`name_i`, assert the name count matches the coefficient count, and return the
name→value table (`none` embeds the `AssertionError`, and the crash when the
model is unfitted); the optional file write is external I/O and has no effect
on the returned table. -/
def OverallModel.write_soln (s : OverallModel) : Option (List (String × ℚ)) :=
  match s.soln with
  | none => none
  | some β =>
    let names := s.cov_models.flatMap fun cm =>
      (List.range cm.num_x_vars).map fun i => cm.name ++ "_" ++ toString i
    if names.length = β.length then some (names.zip β) else none

/-! ### StudyModel -/

/-- State of a `StudyModel` instance: attached data, covariate specifications,
flattened covariate names, stored design matrix, and the fitted per-group
coefficient table (an association list `group id → coefficient vector`, in
`studies` order). -/
structure StudyModel where
  data : Option MRData
  cov_models : List LinearCovModel
  cov_names : List String
  mat : Option (List (List ℚ))
  soln : Option (List (ℚ × List ℚ))
deriving DecidableEq

/-- `StudyModel.create_design_mat(self, data)`: resolve `data` to `self.data`
when absent and return `data.get_covs(self.cov_names)`. -/
def StudyModel.create_design_mat (s : StudyModel) (dOpt : Option MRData) :
    Option (List (List ℚ)) :=
  match dOpt.orElse fun _ => s.data with
  | none => none
  | some d => some (d.get_covs s.cov_names)

/-- `StudyModel.attach_data(self, data)`: no-op on `None`; otherwise store the
observation set and rebuild the design matrix. Unlike
`OverallModel.attach_data`, the covariate specifications are not attached. -/
def StudyModel.attach_data (s : StudyModel) (dOpt : Option MRData) :
    StudyModel :=
  match dOpt with
  | none => s
  | some d =>
    let s1 := { s with data := some d }
    { s1 with mat := s1.create_design_mat none }

/-- One iteration of the `StudyModel.fit_model` loop: select the
design-matrix rows and outcome/standard-error values belonging to group `g`
by the boolean mask `self.data.study_id == g` and solve that group's system
independently. -/
def StudyModel.fitGroup (d : MRData) (m : List (List ℚ)) (g : ℚ) :
    Option (List ℚ) :=
  let pairs := (m.zip d.rows).filter fun pr => decide (pr.2.study_id = g)
  solve_ls_list (pairs.map Prod.fst) (pairs.map fun pr => pr.2.obs)
    (pairs.map fun pr => pr.2.obs_se)

/-- The `for study_id in self.data.studies` loop of `StudyModel.fit_model`,
building the group → coefficient-vector table; any group's solver failure
aborts the whole loop (the exception propagates). -/
def StudyModel.fitLoop (d : MRData) (m : List (List ℚ)) :
    List ℚ → Option (List (ℚ × List ℚ))
  | [] => some []
  | g :: gs =>
    match StudyModel.fitGroup d m g, StudyModel.fitLoop d m gs with
    | some β, some rest => some ((g, β) :: rest)
    | _, _ => none

/-- The per-group coefficient table produced by `StudyModel.fit_model` from
the attached data and stored design matrix: one entry per distinct group
identifier, in `self.data.studies` order. -/
def StudyModel.fitSoln (d : MRData) (m : List (List ℚ)) :
    Option (List (ℚ × List ℚ)) :=
  StudyModel.fitLoop d m d.studies

/-- `StudyModel.fit_model(self)`: `ValueError` when no data is attached,
otherwise build the per-group coefficient table. -/
def StudyModel.fit_model (s : StudyModel) : Except String StudyModel :=
  match s.data with
  | none => .error "Must attach data before fitting the model."
  | some d =>
    match s.mat with
    | none => .error "TypeError: design matrix is missing."
    | some m =>
      match StudyModel.fitSoln d m with
      | none => .error "LinAlgError: Singular matrix."
      | some sl => .ok { s with soln := some sl }

/-- `np.mean(list(self.soln.values()), axis=0)`: element-wise mean of the
fitted groups' coefficient vectors. -/
def StudyModel.meanSoln (sl : List (ℚ × List ℚ)) : List ℚ :=
  meanVec (sl.map Prod.snd)

/-- One element of the prediction-time coefficient comprehension:
`self.soln[study_id] if study_id in self.data.study_id else mean_soln`; the
lookup's `KeyError` is embedded as `none`. -/
def StudyModel.rowSoln (sl : List (ℚ × List ℚ)) (trainIds : List ℚ) (g : ℚ) :
    Option (List ℚ) :=
  if g ∈ trainIds then sl.lookup g else some (StudyModel.meanSoln sl)

/-- The per-row coefficient array assembled by `StudyModel.predict` before any
clamping (the `np.array([...])` comprehension over `data.study_id`): one
coefficient vector per prediction row, selected against the attached data's
group ids. -/
def StudyModel.rowCoeffs (sl : List (ℚ × List ℚ)) (trainIds : List ℚ) :
    List ℚ → Option (List (List ℚ))
  | [] => some []
  | g :: gs =>
    match StudyModel.rowSoln sl trainIds g, StudyModel.rowCoeffs sl trainIds gs with
    | some c, some cs => some (c :: cs)
    | _, _ => none

/-- One `slope_quantile` item applied to the per-row coefficient array: if the
name is among the model's covariate names, compute the `np.quantile` of that
column and clamp the column from below (`np.maximum`) when the quantile is at
least `0.5`, from above (`np.minimum`) otherwise; other names are ignored. -/
def clampStep (cov_names : List String) (soln : List (List ℚ))
    (p : String × ℚ) : List (List ℚ) :=
  if p.1 ∈ cov_names then
    let i := cov_names.indexOf p.1
    let v := npQuantile (soln.map fun row => row.getD i 0) p.2
    if (1 : ℚ)/2 ≤ p.2 then
      soln.map fun row => row.set i (max (row.getD i 0) v)
    else
      soln.map fun row => row.set i (min (row.getD i 0) v)
  else soln

/-- The `slope_quantile` loop of `StudyModel.predict`: the items applied in
order. -/
def applyClamps (cov_names : List String) (soln : List (List ℚ))
    (sq : List (String × ℚ)) : List (List ℚ) :=
  sq.foldl (clampStep cov_names) soln

/-- `StudyModel.predict(self, data, slope_quantile)`: resolve the data and the
design matrix (the stored matrix is used only when the resolved data is still
absent), assemble the per-row coefficient array from the fitted table with the
cross-group mean as fallback, optionally clamp columns by quantile, and return
`np.sum(mat*soln, axis=1)`. All arrays are freshly assembled locals
(`np.array` copies the selected vectors), so the instance state is passed
through unchanged. -/
def StudyModel.predict (s : StudyModel) (dOpt : Option MRData)
    (slope_quantile : Option (List (String × ℚ))) :
    StudyModel × Option (List ℚ) :=
  let dR := dOpt.orElse fun _ => s.data
  let mOpt := if dR.isNone then s.mat else s.create_design_mat dR
  let out : Option (List ℚ) := do
    let d ← dR
    let m ← mOpt
    let sl ← s.soln
    let dTrain ← s.data
    let coeffs ← StudyModel.rowCoeffs sl dTrain.study_id d.study_id
    let coeffs2 := match slope_quantile with
      | none => coeffs
      | some sq => applyClamps s.cov_names coeffs sq
    pure (rowwiseDot m coeffs2)
  (s, out)

/-! ### Result exporter (`result_to_df`) -/

/-- The result table: the observation set's tabular form augmented with
prediction and residual columns. -/
structure ResultDf where
  base : MRData
  prediction : List ℚ
  residual : List ℚ
deriving DecidableEq

/-- `Union[OverallModel, StudyModel]`. -/
inductive Model
  | overall (s : OverallModel)
  | study (s : StudyModel)

/-- Dispatch of `model.predict(data)` over the union type (the study model's
`slope_quantile` keeps its default `None`). -/
def Model.predict (mo : Model) (d : Option MRData) : Option (List ℚ) :=
  match mo with
  | .overall s => s.predict d
  | .study s => (s.predict d none).2

/-- `result_to_df(model, data)`: sort the observation set in place by row id
(the mutation is returned as the first component), predict on the sorted set,
and return its tabular form with prediction and residual columns appended. -/
def result_to_df (mo : Model) (d : MRData) : MRData × Option ResultDf :=
  let d2 := d.sortByDataId
  let out : Option ResultDf := do
    let pred ← mo.predict (some d2)
    pure { base := d2
           prediction := pred
           residual := List.zipWith (fun a b => a - b) d2.obs pred }
  (d2, out)

/-! ### Shared helper lemmas and concrete fixtures -/

/-- Intercept covariate specification (`LinearCovModel('intercept')`). -/
def icm : LinearCovModel := ⟨"intercept", ["intercept"], 1, none⟩

/-- Concrete scenario data: 4 observations, groups `[1, 1, 2, 2]`, outcomes
`[1, 2, 3, 4]`, standard errors all `1`, a single intercept covariate. -/
def d4 : MRData :=
  ⟨[⟨1, 1, 1, 1, [("intercept", 1)]⟩, ⟨2, 2, 1, 1, [("intercept", 1)]⟩,
    ⟨3, 3, 1, 2, [("intercept", 1)]⟩, ⟨4, 4, 1, 2, [("intercept", 1)]⟩]⟩

/-- Prediction data containing a single row for the unseen group `3`. -/
def dC : MRData := ⟨[⟨1, 0, 1, 3, [("intercept", 1)]⟩]⟩

/-- Study model with the concrete scenario data attached. -/
def s4 : StudyModel :=
  StudyModel.attach_data ⟨none, [icm], ["intercept"], none, none⟩ (some d4)

/-- Study model after fitting the concrete scenario. -/
def s4f : StudyModel :=
  ⟨some d4, [icm], ["intercept"], some [[1], [1], [1], [1]],
    some [(1, [3/2]), (2, [7/2])]⟩

/-- Overall model with the concrete scenario data attached. -/
def o4 : OverallModel :=
  OverallModel.attach_data ⟨none, [icm], none, none⟩ (some d4)

/-- Overall model after fitting the concrete scenario. -/
def o4f : OverallModel :=
  ⟨some d4, [⟨"intercept", ["intercept"], 1, some d4⟩], some [[1], [1], [1], [1]],
    some [5/2]⟩

theorem s4_eq :
    s4 = ⟨some d4, [icm], ["intercept"], some [[1], [1], [1], [1]], none⟩ := by
  norm_num [s4, StudyModel.attach_data, StudyModel.create_design_mat,
    MRData.get_covs, d4, icm, Option.orElse, List.lookup]

theorem o4_eq :
    o4 = ⟨some d4, [⟨"intercept", ["intercept"], 1, some d4⟩],
      some [[1], [1], [1], [1]], none⟩ := by
  norm_num [o4, OverallModel.attach_data, OverallModel.create_design_mat,
    OverallModel.designMat, LinearCovModel.attach_data, LinearCovModel.designRow,
    d4, icm, Option.orElse, List.lookup]

theorem solve_pair_12 : solve_ls_list [[1], [1]] [1, 2] [1, 1] = some [3/2] := by
  have h : solve_ls_list [[1], [1]] [1, 2] [1, 1]
      = solveFin 2 1 [[1], [1]] [1, 2] [1, 1] := by
    norm_num [solve_ls_list, ncols]
  rw [h]
  norm_num [solveFin, solve_ls, Matrix.det_fin_one, Matrix.adjugate_fin_one,
    Matrix.mul_apply, Matrix.mulVec, Matrix.dotProduct, Fin.sum_univ_succ,
    List.ofFn_succ]

theorem solve_pair_34 : solve_ls_list [[1], [1]] [3, 4] [1, 1] = some [7/2] := by
  have h : solve_ls_list [[1], [1]] [3, 4] [1, 1]
      = solveFin 2 1 [[1], [1]] [3, 4] [1, 1] := by
    norm_num [solve_ls_list, ncols]
  rw [h]
  norm_num [solveFin, solve_ls, Matrix.det_fin_one, Matrix.adjugate_fin_one,
    Matrix.mul_apply, Matrix.mulVec, Matrix.dotProduct, Fin.sum_univ_succ,
    List.ofFn_succ]

theorem solve_all4 :
    solve_ls_list [[1], [1], [1], [1]] [1, 2, 3, 4] [1, 1, 1, 1] = some [5/2] := by
  have h : solve_ls_list [[1], [1], [1], [1]] [1, 2, 3, 4] [1, 1, 1, 1]
      = solveFin 4 1 [[1], [1], [1], [1]] [1, 2, 3, 4] [1, 1, 1, 1] := by
    norm_num [solve_ls_list, ncols]
  rw [h]
  norm_num [solveFin, solve_ls, Matrix.det_fin_one, Matrix.adjugate_fin_one,
    Matrix.mul_apply, Matrix.mulVec, Matrix.dotProduct, Fin.sum_univ_succ,
    List.ofFn_succ]

theorem fitGroup_d4_1 :
    StudyModel.fitGroup d4 [[1], [1], [1], [1]] 1 = some [3/2] := by
  have h : StudyModel.fitGroup d4 [[1], [1], [1], [1]] 1
      = solve_ls_list [[1], [1]] [1, 2] [1, 1] := by
    norm_num [StudyModel.fitGroup, d4, List.filter]
  rw [h, solve_pair_12]

theorem fitGroup_d4_2 :
    StudyModel.fitGroup d4 [[1], [1], [1], [1]] 2 = some [7/2] := by
  have h : StudyModel.fitGroup d4 [[1], [1], [1], [1]] 2
      = solve_ls_list [[1], [1]] [3, 4] [1, 1] := by
    norm_num [StudyModel.fitGroup, d4, List.filter]
  rw [h, solve_pair_34]

theorem studies_d4 : MRData.studies d4 = [1, 2] := by
  norm_num [MRData.studies, MRData.study_id, d4, List.dedup_cons_of_mem,
    List.dedup_cons_of_not_mem]

theorem fitSoln_d4 :
    StudyModel.fitSoln d4 [[1], [1], [1], [1]] = some [(1, [3/2]), (2, [7/2])] := by
  norm_num [StudyModel.fitSoln, studies_d4, StudyModel.fitLoop, fitGroup_d4_1,
    fitGroup_d4_2]

theorem overall_fit_model_eq (s : OverallModel) (d : MRData)
    (m : List (List ℚ)) (β : List ℚ) (hd : s.data = some d)
    (hm : s.mat = some m) (hs : solve_ls_list m d.obs d.obs_se = some β) :
    OverallModel.fit_model s = .ok { s with soln := some β } := by
  unfold OverallModel.fit_model
  rw [hd, hm]
  simp only [hs]

theorem study_fit_model_eq (s : StudyModel) (d : MRData)
    (m : List (List ℚ)) (sl : List (ℚ × List ℚ)) (hd : s.data = some d)
    (hm : s.mat = some m) (hs : StudyModel.fitSoln d m = some sl) :
    StudyModel.fit_model s = .ok { s with soln := some sl } := by
  unfold StudyModel.fit_model
  rw [hd, hm]
  simp only [hs]

theorem overall_attach_data_some (s : OverallModel) (d : MRData) :
    OverallModel.attach_data s (some d) =
      ⟨some d, s.cov_models.map fun cm => LinearCovModel.attach_data cm d,
        some (OverallModel.designMat
          (s.cov_models.map fun cm => LinearCovModel.attach_data cm d) d),
        s.soln⟩ := by
  simp [OverallModel.attach_data, OverallModel.create_design_mat, Option.orElse]

theorem study_attach_data_some (s : StudyModel) (d : MRData) :
    StudyModel.attach_data s (some d) =
      ⟨some d, s.cov_models, s.cov_names, some (d.get_covs s.cov_names),
        s.soln⟩ := by
  simp [StudyModel.attach_data, StudyModel.create_design_mat, Option.orElse]

/-! ### Claim theorems -/

/-- C5 counterexample: on a concrete study model and data set,
`StudyModel.attach_data` leaves the covariate specification unattached
(`attached = none`), whereas the claim requires the observation set to be
attached to every covariate specification, as `OverallModel.attach_data`
does. -/
theorem studyModel_attach_data_no_cov_attach :
    (StudyModel.attach_data ⟨none, [icm], ["intercept"], none, none⟩
        (some d4)).cov_models.map LinearCovModel.attached = [none] ∧
    (OverallModel.attach_data ⟨none, [icm], none, none⟩
        (some d4)).cov_models.map LinearCovModel.attached = [some d4] ∧
    ([(none : Option MRData)] : List (Option MRData)) ≠ [some d4] := by
  refine ⟨?_, ?_, by simp⟩
  · rw [study_attach_data_some]
    simp [icm]
  · rw [overall_attach_data_some]
    simp [icm, LinearCovModel.attach_data]

/-- C5 (amended): `StudyModel.attach_data` stores the observation set and
rebuilds the design matrix for every non-`None` data argument — without
attaching the data to the covariate specifications, which only
`OverallModel.attach_data` does — and is a no-op for `None`. -/
theorem studyModel_attach_data_behaviour (s : StudyModel) (d : MRData) :
    StudyModel.attach_data s (some d) =
      ⟨some d, s.cov_models, s.cov_names, some (d.get_covs s.cov_names),
        s.soln⟩ ∧
    StudyModel.attach_data s none = s := by
  exact ⟨study_attach_data_some s d, rfl⟩

/-- C10: `StudyModel.predict` passes the instance state through unchanged:
the fitted coefficient table, the stored design matrix and the attached data
are identical before and after any predict call, clamped or not (the clamp
operates on the freshly assembled per-row coefficient array). -/
theorem studyModel_predict_preserves_state (s : StudyModel)
    (dOpt : Option MRData) (sq : Option (List (String × ℚ))) :
    (StudyModel.predict s dOpt sq).1 = s ∧
    (StudyModel.predict s dOpt sq).1.soln = s.soln ∧
    (StudyModel.predict s dOpt sq).1.mat = s.mat ∧
    (StudyModel.predict s dOpt sq).1.data = s.data :=
  ⟨rfl, rfl, rfl, rfl⟩

/-- C4: with no data attached, `fit_model` of either model returns the usage
`ValueError` with its explanatory message (raised before any state is
touched), and after attaching data the retried fit succeeds whenever the
attached system is solvable. -/
theorem fit_model_usage_error_and_recovery :
    (∀ s : OverallModel, s.data = none →
      OverallModel.fit_model s =
        .error "Must attach data before fitting the model.") ∧
    (∀ s : StudyModel, s.data = none →
      StudyModel.fit_model s =
        .error "Must attach data before fitting the model.") ∧
    (∀ (s : OverallModel) (d : MRData) (m : List (List ℚ)) (β : List ℚ),
      (OverallModel.attach_data s (some d)).mat = some m →
      solve_ls_list m d.obs d.obs_se = some β →
      OverallModel.fit_model (OverallModel.attach_data s (some d)) =
        .ok { OverallModel.attach_data s (some d) with soln := some β }) ∧
    (∀ (s : StudyModel) (d : MRData) (m : List (List ℚ))
        (sl : List (ℚ × List ℚ)),
      (StudyModel.attach_data s (some d)).mat = some m →
      StudyModel.fitSoln d m = some sl →
      StudyModel.fit_model (StudyModel.attach_data s (some d)) =
        .ok { StudyModel.attach_data s (some d) with soln := some sl }) := by
  refine ⟨?_, ?_, ?_, ?_⟩
  · intro s h
    unfold OverallModel.fit_model
    rw [h]
  · intro s h
    unfold StudyModel.fit_model
    rw [h]
  · intro s d m β hm hs
    exact overall_fit_model_eq _ d m β
      (by rw [overall_attach_data_some]) hm hs
  · intro s d m sl hm hs
    exact study_fit_model_eq _ d m sl
      (by rw [study_attach_data_some]) hm hs

theorem obs_d4 : MRData.obs d4 = [1, 2, 3, 4] := by norm_num [MRData.obs, d4]

theorem obs_se_d4 : MRData.obs_se d4 = [1, 1, 1, 1] := by
  norm_num [MRData.obs_se, d4]

/-- C4 witness: the concrete no-data models produce the usage error, and the
concrete attached models fit successfully. -/
theorem fit_model_usage_error_and_recovery_witness :
    OverallModel.fit_model ⟨none, [icm], none, none⟩ =
      .error "Must attach data before fitting the model." ∧
    StudyModel.fit_model ⟨none, [icm], ["intercept"], none, none⟩ =
      .error "Must attach data before fitting the model." ∧
    OverallModel.fit_model o4 = .ok { o4 with soln := some [5/2] } ∧
    StudyModel.fit_model s4 =
      .ok { s4 with soln := some [(1, [3/2]), (2, [7/2])] } := by
  refine ⟨fit_model_usage_error_and_recovery.1 _ rfl,
    fit_model_usage_error_and_recovery.2.1 _ rfl, ?_, ?_⟩
  · exact fit_model_usage_error_and_recovery.2.2.1 ⟨none, [icm], none, none⟩
      d4 [[1], [1], [1], [1]] [5/2]
      (by rw [show OverallModel.attach_data ⟨none, [icm], none, none⟩
          (some d4) = o4 from rfl, o4_eq])
      (by rw [obs_d4, obs_se_d4]; exact solve_all4)
  · exact fit_model_usage_error_and_recovery.2.2.2
      ⟨none, [icm], ["intercept"], none, none⟩ d4 [[1], [1], [1], [1]]
      [(1, [3/2]), (2, [7/2])]
      (by rw [show StudyModel.attach_data ⟨none, [icm], ["intercept"], none,
          none⟩ (some d4) = s4 from rfl, s4_eq])
      fitSoln_d4

theorem StudyModel.rowCoeffs_spec (sl : List (ℚ × List ℚ)) (t : List ℚ)
    (ids : List ℚ) (rc : List (List ℚ))
    (h : StudyModel.rowCoeffs sl t ids = some rc) :
    rc.length = ids.length ∧
    ∀ r : ℕ, r < ids.length →
      StudyModel.rowSoln sl t (ids.getD r 0) = some (rc.getD r []) := by
  induction ids generalizing rc with
  | nil =>
    rw [StudyModel.rowCoeffs] at h
    cases h
    exact ⟨rfl, fun r hr => absurd hr (by simp)⟩
  | cons g gs ih =>
    rw [StudyModel.rowCoeffs] at h
    cases hc : StudyModel.rowSoln sl t g with
    | none => rw [hc] at h; exact absurd h (by simp)
    | some c =>
      cases hcs : StudyModel.rowCoeffs sl t gs with
      | none => rw [hc, hcs] at h; exact absurd h (by simp)
      | some cs =>
        rw [hc, hcs] at h
        cases h
        obtain ⟨hlen, htail⟩ := ih cs hcs
        refine ⟨by simp [hlen], ?_⟩
        intro r hr
        cases r with
        | zero => simpa using hc
        | succ r =>
          simpa using htail r (by simpa using hr)

theorem StudyModel.fitLoop_spec (d : MRData) (m : List (List ℚ))
    (gs : List ℚ) (sl : List (ℚ × List ℚ))
    (h : StudyModel.fitLoop d m gs = some sl) :
    sl.map Prod.fst = gs ∧
    ∀ p ∈ sl, StudyModel.fitGroup d m p.1 = some p.2 := by
  induction gs generalizing sl with
  | nil =>
    rw [StudyModel.fitLoop] at h
    cases h
    exact ⟨rfl, fun p hp => absurd hp (by simp)⟩
  | cons g gs ih =>
    rw [StudyModel.fitLoop] at h
    cases hg : StudyModel.fitGroup d m g with
    | none => rw [hg] at h; exact absurd h (by simp)
    | some β =>
      cases hrest : StudyModel.fitLoop d m gs with
      | none => rw [hg, hrest] at h; exact absurd h (by simp)
      | some rest =>
        rw [hg, hrest] at h
        cases h
        obtain ⟨hmap, hmem⟩ := ih rest hrest
        refine ⟨by simp [hmap], ?_⟩
        intro p hp
        rcases List.mem_cons.mp hp with hp | hp
        · subst hp; exact hg
        · exact hmem p hp

/-- C2: for a fitted study model, `predict` combines the design matrix built
from the prediction data row-wise with per-row coefficient vectors, and each
prediction row receives its group's fitted coefficient vector exactly when the
group id occurs among the attached (training) observation set's group ids —
membership is decided against the training data, not the prediction data —
and the element-wise mean of all fitted groups' vectors otherwise. -/
theorem studyModel_predict_group_fallback (s : StudyModel) (dtrain : MRData)
    (sl : List (ℚ × List ℚ)) (dp : MRData) (rc : List (List ℚ))
    (hd : s.data = some dtrain) (hs : s.soln = some sl)
    (hrc : StudyModel.rowCoeffs sl dtrain.study_id dp.study_id = some rc) :
    (StudyModel.predict s (some dp) none).2 =
      some (rowwiseDot (dp.get_covs s.cov_names) rc) ∧
    ∀ r : ℕ, r < dp.study_id.length →
      rc.getD r [] =
        if dp.study_id.getD r 0 ∈ dtrain.study_id
        then (sl.lookup (dp.study_id.getD r 0)).getD []
        else StudyModel.meanSoln sl := by
  constructor
  · simp [StudyModel.predict, Option.orElse, StudyModel.create_design_mat,
      hd, hs, hrc]
  · intro r hr
    have hrow := (StudyModel.rowCoeffs_spec sl dtrain.study_id dp.study_id
      rc hrc).2 r hr
    rw [StudyModel.rowSoln] at hrow
    by_cases hmem : dp.study_id.getD r 0 ∈ dtrain.study_id
    · rw [if_pos hmem] at hrow
      rw [if_pos hmem, hrow]
      rfl
    · rw [if_neg hmem] at hrow
      rw [if_neg hmem]
      exact (Option.some_injective _ hrow).symm

theorem meanSoln_s4f :
    StudyModel.meanSoln [(1, [3/2]), (2, [7/2])] = [5/2] := by
  norm_num [StudyModel.meanSoln, meanVec, List.range_succ]

theorem rowCoeffs_dC :
    StudyModel.rowCoeffs [(1, [3/2]), (2, [7/2])] (MRData.study_id d4)
      (MRData.study_id dC) = some [[5/2]] := by
  norm_num [StudyModel.rowCoeffs, StudyModel.rowSoln, MRData.study_id, d4, dC,
    meanSoln_s4f]

/-- C2 witness: the concrete fitted study model predicts the unseen group `3`
row with the mean coefficient vector, yielding `5/2`. -/
theorem studyModel_predict_group_fallback_witness :
    (StudyModel.predict s4f (some dC) none).2 = some [5/2] := by
  have h := (studyModel_predict_group_fallback s4f d4 [(1, [3/2]), (2, [7/2])]
    dC [[5/2]] rfl rfl rowCoeffs_dC).1
  rw [h]
  norm_num [rowwiseDot, MRData.get_covs, dC, s4f, List.lookup, dot]

/-- C6: for a fitted model whose stored design matrix is the one built from
the attached data, predicting with `data=None` returns exactly the stored
matrix combined with the fitted coefficients (`stored · soln` for
`OverallModel`; row-wise combination with the per-row coefficient vectors for
`StudyModel`): reusing the stored matrix and rebuilding it from the attached
data are equivalent. -/
theorem predict_none_uses_stored_matrix :
    (∀ (s : OverallModel) (d : MRData) (m : List (List ℚ)) (β : List ℚ),
      s.data = some d → s.mat = some m →
      m = OverallModel.designMat s.cov_models d → s.soln = some β →
      OverallModel.predict s none = some (matVec m β)) ∧
    (∀ (s : StudyModel) (d : MRData) (m : List (List ℚ))
        (sl : List (ℚ × List ℚ)) (rc : List (List ℚ)),
      s.data = some d → s.mat = some m → m = d.get_covs s.cov_names →
      s.soln = some sl →
      StudyModel.rowCoeffs sl d.study_id d.study_id = some rc →
      (StudyModel.predict s none none).2 = some (rowwiseDot m rc)) := by
  constructor
  · intro s d m β hd hm hmat hs
    subst hmat
    simp [OverallModel.predict, Option.orElse, OverallModel.create_design_mat,
      hd, hs]
  · intro s d m sl rc hd hm hmat hs hrc
    subst hmat
    simp [StudyModel.predict, Option.orElse, StudyModel.create_design_mat,
      hd, hs, hrc]

theorem qlookup_eq {β : Type} (k : ℚ) (v : β) (l : List (ℚ × β)) :
    ((k, v) :: l).lookup k = some v := by
  simp [List.lookup]

theorem qlookup_ne {β : Type} (a k : ℚ) (v : β) (l : List (ℚ × β))
    (h : ¬a = k) : ((k, v) :: l).lookup a = l.lookup a := by
  have hb : (a == k) = false := beq_eq_false_iff_ne.mpr h
  simp [List.lookup, hb]

theorem rowCoeffs_d4_self :
    StudyModel.rowCoeffs [(1, [3/2]), (2, [7/2])] (MRData.study_id d4)
      (MRData.study_id d4) = some [[3/2], [3/2], [7/2], [7/2]] := by
  norm_num [StudyModel.rowCoeffs, StudyModel.rowSoln, MRData.study_id, d4,
    qlookup_eq, qlookup_ne]

/-- C6 witness: the concrete fitted models predict from `data=None` exactly
via their stored matrices. -/
theorem predict_none_uses_stored_matrix_witness :
    OverallModel.predict o4f none = some (matVec [[1], [1], [1], [1]] [5/2]) ∧
    (StudyModel.predict s4f none none).2 =
      some (rowwiseDot [[1], [1], [1], [1]] [[3/2], [3/2], [7/2], [7/2]]) := by
  constructor
  · exact predict_none_uses_stored_matrix.1 o4f d4 [[1], [1], [1], [1]] [5/2]
      rfl rfl
      (by norm_num [OverallModel.designMat, o4f, LinearCovModel.designRow, d4,
        List.lookup])
      rfl
  · exact predict_none_uses_stored_matrix.2 s4f d4 [[1], [1], [1], [1]]
      [(1, [3/2]), (2, [7/2])] [[3/2], [3/2], [7/2], [7/2]]
      rfl rfl
      (by norm_num [MRData.get_covs, s4f, d4, List.lookup])
      rfl rowCoeffs_d4_self

/-- C7: `StudyModel.fit_model` produces exactly one coefficient entry per
distinct group identifier of the attached observation set, each solved by the
weighted least-squares solver on only that group's design-matrix rows and
outcome/standard-error values; in the concrete scenario (groups
`[1, 1, 2, 2]`, outcomes `[1, 2, 3, 4]`, unit standard errors, intercept
only) the study model yields `1 → 3/2` and `2 → 7/2`, predicting the unseen
group `3` yields `5/2`, and the overall model's fit yields `5/2`. -/
theorem studyModel_fit_per_group :
    (∀ (d : MRData) (m : List (List ℚ)) (sl : List (ℚ × List ℚ)),
      StudyModel.fitSoln d m = some sl →
      sl.map Prod.fst = d.studies ∧
      ∀ p ∈ sl, StudyModel.fitGroup d m p.1 = some p.2) ∧
    StudyModel.fit_model s4 = .ok s4f ∧
    (StudyModel.predict s4f (some dC) none).2 = some [5/2] ∧
    OverallModel.fit_model o4 = .ok o4f := by
  refine ⟨?_, ?_, ?_, ?_⟩
  · intro d m sl h
    exact StudyModel.fitLoop_spec d m d.studies sl h
  · have h := study_fit_model_eq s4 d4 [[1], [1], [1], [1]]
      [(1, [3/2]), (2, [7/2])] (by rw [s4_eq]) (by rw [s4_eq]) fitSoln_d4
    rw [h, s4_eq]
    rfl
  · have h := (studyModel_predict_group_fallback s4f d4
      [(1, [3/2]), (2, [7/2])] dC [[5/2]] rfl rfl rowCoeffs_dC).1
    rw [h]
    norm_num [rowwiseDot, MRData.get_covs, dC, s4f, List.lookup, dot]
  · have h := overall_fit_model_eq o4 d4 [[1], [1], [1], [1]] [5/2]
      (by rw [o4_eq]) (by rw [o4_eq])
      (by rw [obs_d4, obs_se_d4]; exact solve_all4)
    rw [h, o4_eq]
    rfl

/-- C7 witness: the general per-group clause applied to the concrete
scenario: the fitted table's keys are exactly the distinct groups `[1, 2]`,
and group `1`'s entry is the solve on group `1`'s rows. -/
theorem studyModel_fit_per_group_witness :
    ([(1, [3/2]), (2, [7/2])] : List (ℚ × List ℚ)).map Prod.fst =
      MRData.studies d4 ∧
    StudyModel.fitGroup d4 [[1], [1], [1], [1]] 1 = some [3/2] := by
  refine ⟨(studyModel_fit_per_group.1 d4 [[1], [1], [1], [1]]
    [(1, [3/2]), (2, [7/2])] fitSoln_d4).1, ?_⟩
  have h := (studyModel_fit_per_group.1 d4 [[1], [1], [1], [1]]
    [(1, [3/2]), (2, [7/2])] fitSoln_d4).2 (1, [3/2]) (by simp)
  exact h

theorem solve_ls_list_length (m : List (List ℚ)) (y s : List ℚ) (β : List ℚ)
    (h : solve_ls_list m y s = some β) : β.length = ncols m := by
  unfold solve_ls_list solveFin at h
  rcases Option.map_eq_some'.mp h with ⟨f, _, hf⟩
  rw [← hf, List.length_ofFn]

theorem length_flatMap {α β : Type} (l : List α) (f : α → List β) :
    (l.flatMap f).length = (l.map fun a => (f a).length).sum := by
  induction l with
  | nil => rfl
  | cons a t ih => simp [List.flatMap_cons, ih]

/-- C8: `OverallModel.write_soln` returns the name→value table, each name
being the covariate specification's name joined with the positional index in
its column block; when the model was fitted from a design matrix built by its
own covariate specifications (which produce as many columns as they declare),
the internal `assert len(names) == len(self.soln)` always holds, so the table
is returned rather than an assertion failure. The optional file write is
external I/O and does not affect the returned table. -/
theorem overallModel_write_soln_table (s : OverallModel) (d : MRData)
    (r0 : DataRow) (rs : List DataRow) (m : List (List ℚ)) (β : List ℚ)
    (hd : s.data = some d) (hrows : d.rows = r0 :: rs)
    (hm : s.mat = some m) (hmat : m = OverallModel.designMat s.cov_models d)
    (hwf : ∀ cm ∈ s.cov_models, cm.num_x_vars = cm.covs.length)
    (hsolve : solve_ls_list m d.obs d.obs_se = some β)
    (hs : s.soln = some β) :
    OverallModel.write_soln s =
      some ((s.cov_models.flatMap fun cm =>
        (List.range cm.num_x_vars).map fun i =>
          cm.name ++ "_" ++ toString i).zip β) := by
  have hβ : β.length = ncols m := solve_ls_list_length m d.obs d.obs_se β hsolve
  have hcols : ncols m = (s.cov_models.map fun cm => cm.num_x_vars).sum := by
    rw [hmat]
    unfold OverallModel.designMat ncols
    rw [hrows]
    simp only [List.map_cons, List.headD_cons, List.length_flatten,
      List.map_map]
    congr 1
    refine List.map_congr_left ?_
    intro cm hcm
    simp [Function.comp, LinearCovModel.designRow, hwf cm hcm]
  have hnames : (s.cov_models.flatMap fun cm =>
      (List.range cm.num_x_vars).map fun i =>
        cm.name ++ "_" ++ toString i).length =
      (s.cov_models.map fun cm => cm.num_x_vars).sum := by
    rw [length_flatMap]
    simp
  have hlen : (s.cov_models.flatMap fun cm =>
      (List.range cm.num_x_vars).map fun i =>
        cm.name ++ "_" ++ toString i).length = β.length := by
    rw [hnames, hβ, hcols]
  unfold OverallModel.write_soln
  rw [hs]
  simp [hlen]

/-- C8 witness: for the concrete fitted overall model, `write_soln` returns
the table `[("intercept_0", 5/2)]`. -/
theorem overallModel_write_soln_table_witness :
    OverallModel.write_soln o4f = some [("intercept_0", 5/2)] := by
  have h := overallModel_write_soln_table o4f d4
    ⟨1, 1, 1, 1, [("intercept", 1)]⟩
    [⟨2, 2, 1, 1, [("intercept", 1)]⟩, ⟨3, 3, 1, 2, [("intercept", 1)]⟩,
      ⟨4, 4, 1, 2, [("intercept", 1)]⟩]
    [[1], [1], [1], [1]] [5/2] rfl (by norm_num [d4]) rfl
    (by norm_num [OverallModel.designMat, o4f, LinearCovModel.designRow, d4,
      List.lookup])
    (by intro cm hcm; simp [o4f] at hcm; subst hcm; rfl)
    (by rw [obs_d4, obs_se_d4]; exact solve_all4) rfl
  rw [h]
  norm_num [o4f, List.range_succ]
  decide

theorem getD_set_ne (l : List ℚ) (j i : ℕ) (a : ℚ) (h : i ≠ j) :
    (l.set j a).getD i 0 = l.getD i 0 := by
  simp [List.getD_eq_getElem?_getD, List.getElem?_set_ne (Ne.symm h)]

theorem getD_set_self (l : List ℚ) (i : ℕ) (a : ℚ) (h : i < l.length) :
    (l.set i a).getD i 0 = a := by
  simp [List.getD_eq_getElem?_getD, List.getElem?_set_self, h]

theorem clampStep_column_ne (cn : List String) (soln : List (List ℚ))
    (p : String × ℚ) (i : ℕ) (h : p.1 ∈ cn → cn.indexOf p.1 ≠ i) :
    column i (clampStep cn soln p) = column i soln := by
  unfold clampStep
  by_cases hmem : p.1 ∈ cn
  · rw [if_pos hmem]
    by_cases hq : (1 : ℚ)/2 ≤ p.2
    · rw [if_pos hq]
      simp only [column, List.map_map]
      refine List.map_congr_left fun row _ => ?_
      exact getD_set_ne _ _ _ _ (h hmem).symm
    · rw [if_neg hq]
      simp only [column, List.map_map]
      refine List.map_congr_left fun row _ => ?_
      exact getD_set_ne _ _ _ _ (h hmem).symm
  · rw [if_neg hmem]

theorem clampStep_row_lengths (cn : List String) (soln : List (List ℚ))
    (p : String × ℚ) :
    (clampStep cn soln p).map List.length = soln.map List.length := by
  unfold clampStep
  by_cases hmem : p.1 ∈ cn
  · rw [if_pos hmem]
    by_cases hq : (1 : ℚ)/2 ≤ p.2
    · rw [if_pos hq]
      simp
    · rw [if_neg hq]
      simp
  · rw [if_neg hmem]

theorem applyClamps_column_ne (cn : List String) (sq : List (String × ℚ))
    (soln : List (List ℚ)) (i : ℕ)
    (h : ∀ p ∈ sq, p.1 ∈ cn → cn.indexOf p.1 ≠ i) :
    column i (applyClamps cn soln sq) = column i soln := by
  induction sq generalizing soln with
  | nil => rfl
  | cons p ps ih =>
    rw [applyClamps, List.foldl_cons]
    rw [show List.foldl (clampStep cn) (clampStep cn soln p) ps
      = applyClamps cn (clampStep cn soln p) ps from rfl]
    rw [ih (clampStep cn soln p) fun q hq => h q (List.mem_cons_of_mem p hq)]
    exact clampStep_column_ne cn soln p i (h p (List.mem_cons_self p ps))

theorem applyClamps_row_lengths (cn : List String) (sq : List (String × ℚ))
    (soln : List (List ℚ)) :
    (applyClamps cn soln sq).map List.length = soln.map List.length := by
  induction sq generalizing soln with
  | nil => rfl
  | cons p ps ih =>
    rw [applyClamps, List.foldl_cons]
    rw [show List.foldl (clampStep cn) (clampStep cn soln p) ps
      = applyClamps cn (clampStep cn soln p) ps from rfl]
    rw [ih (clampStep cn soln p), clampStep_row_lengths]

theorem clampStep_column_self (cn : List String) (soln : List (List ℚ))
    (p : String × ℚ) (hmem : p.1 ∈ cn)
    (hlen : ∀ row ∈ soln, cn.indexOf p.1 < row.length) :
    column (cn.indexOf p.1) (clampStep cn soln p) =
      (column (cn.indexOf p.1) soln).map fun x =>
        if (1 : ℚ)/2 ≤ p.2
        then max x (npQuantile (column (cn.indexOf p.1) soln) p.2)
        else min x (npQuantile (column (cn.indexOf p.1) soln) p.2) := by
  unfold clampStep
  rw [if_pos hmem]
  by_cases hq : (1 : ℚ)/2 ≤ p.2
  · rw [if_pos hq]
    simp only [column, List.map_map]
    refine List.map_congr_left fun row hrow => ?_
    simp only [Function.comp, if_pos hq]
    exact getD_set_self _ _ _ (hlen row hrow)
  · rw [if_neg hq]
    simp only [column, List.map_map]
    refine List.map_congr_left fun row hrow => ?_
    simp only [Function.comp, if_neg hq]
    exact getD_set_self _ _ _ (hlen row hrow)

/-- C3: in the `slope_quantile` loop of `StudyModel.predict` (with pairwise
distinct names, as a Python dict guarantees, and coefficient rows of the
model's column count), for each named covariate in the model's covariate-name
list the `np.quantile` of that column's pre-clamp per-row values is computed,
and every row's coefficient for that column becomes its pre-clamp value
clamped from below by the quantile when the quantile is at least `0.5` and
from above when it is below `0.5`; consequently no post-clamp value is below
(resp. above) the quantile; names not in the covariate-name list are
ignored. -/
theorem studyModel_slope_quantile_clamp (cov_names : List String)
    (soln : List (List ℚ)) (sq : List (String × ℚ))
    (hnodup : (sq.map Prod.fst).Nodup)
    (hlen : ∀ row ∈ soln, row.length = cov_names.length) :
    (∀ p ∈ sq, p.1 ∈ cov_names →
      column (cov_names.indexOf p.1) (applyClamps cov_names soln sq) =
        (column (cov_names.indexOf p.1) soln).map fun x =>
          if (1 : ℚ)/2 ≤ p.2
          then max x (npQuantile (column (cov_names.indexOf p.1) soln) p.2)
          else min x (npQuantile (column (cov_names.indexOf p.1) soln) p.2)) ∧
    (∀ p ∈ sq, p.1 ∈ cov_names →
      ∀ x ∈ column (cov_names.indexOf p.1) (applyClamps cov_names soln sq),
        ((1 : ℚ)/2 ≤ p.2 →
          npQuantile (column (cov_names.indexOf p.1) soln) p.2 ≤ x) ∧
        (¬(1 : ℚ)/2 ≤ p.2 →
          x ≤ npQuantile (column (cov_names.indexOf p.1) soln) p.2)) ∧
    (∀ p : String × ℚ, p.1 ∉ cov_names → clampStep cov_names soln p = soln) := by
  have main : ∀ p ∈ sq, p.1 ∈ cov_names →
      column (cov_names.indexOf p.1) (applyClamps cov_names soln sq) =
        (column (cov_names.indexOf p.1) soln).map fun x =>
          if (1 : ℚ)/2 ≤ p.2
          then max x (npQuantile (column (cov_names.indexOf p.1) soln) p.2)
          else min x (npQuantile (column (cov_names.indexOf p.1) soln) p.2) := by
    intro p hp hmem
    obtain ⟨l1, l2, rfl⟩ := List.append_of_mem hp
    have hno := hnodup
    rw [List.map_append, List.map_cons] at hno
    have hdisj := List.disjoint_of_nodup_append hno
    have h1 : ∀ q ∈ l1, q.1 ≠ p.1 := by
      intro q hq hqp
      exact hdisj (List.mem_map_of_mem Prod.fst hq)
        (hqp ▸ List.mem_cons_self _ _)
    have h2 : ∀ q ∈ l2, q.1 ≠ p.1 := by
      intro q hq hqp
      have := (List.nodup_cons.mp hno.of_append_right).1
      exact this (hqp ▸ List.mem_map_of_mem Prod.fst hq)
    have hidx1 : ∀ q ∈ l1, q.1 ∈ cov_names →
        cov_names.indexOf q.1 ≠ cov_names.indexOf p.1 := by
      intro q hq hqc heq
      exact h1 q hq ((List.indexOf_inj hqc hmem).mp heq)
    have hidx2 : ∀ q ∈ l2, q.1 ∈ cov_names →
        cov_names.indexOf q.1 ≠ cov_names.indexOf p.1 := by
      intro q hq hqc heq
      exact h2 q hq ((List.indexOf_inj hqc hmem).mp heq)
    have hsplit : applyClamps cov_names soln (l1 ++ p :: l2) =
        applyClamps cov_names
          (clampStep cov_names (applyClamps cov_names soln l1) p) l2 := by
      unfold applyClamps
      rw [List.foldl_append, List.foldl_cons]
    have hcolA : column (cov_names.indexOf p.1)
        (applyClamps cov_names soln l1) = column (cov_names.indexOf p.1) soln :=
      applyClamps_column_ne cov_names l1 soln _ hidx1
    have hlenA : ∀ row ∈ applyClamps cov_names soln l1,
        cov_names.indexOf p.1 < row.length := by
      intro row hrow
      have hmaps := applyClamps_row_lengths cov_names l1 soln
      have : row.length ∈ (applyClamps cov_names soln l1).map List.length :=
        List.mem_map_of_mem List.length hrow
      rw [hmaps] at this
      obtain ⟨row', hrow', hlen'⟩ := List.mem_map.mp this
      rw [← hlen', hlen row' hrow']
      exact List.indexOf_lt_length.mpr hmem
    have hstep := clampStep_column_self cov_names
      (applyClamps cov_names soln l1) p hmem hlenA
    rw [hcolA] at hstep
    rw [hsplit, applyClamps_column_ne cov_names l2 _ _ hidx2, hstep]
  refine ⟨main, ?_, ?_⟩
  · intro p hp hmem x hx
    rw [main p hp hmem] at hx
    obtain ⟨y, _, rfl⟩ := List.mem_map.mp hx
    constructor
    · intro hq
      rw [if_pos hq]
      exact le_max_right _ _
    · intro hq
      rw [if_neg hq]
      exact min_le_right _ _
  · intro p hmem
    unfold clampStep
    rw [if_neg hmem]

/-- C3 witness: clamping column `x` (index 1) at quantile `1/2` over rows
`[[0,1],[0,2],[0,3]]` raises the column to `[2,2,3]` (median 2), and the name
`z` outside the covariate list is ignored. -/
theorem studyModel_slope_quantile_clamp_witness :
    column 1 (applyClamps ["a", "x"] [[0, 1], [0, 2], [0, 3]]
      [("x", 1/2), ("z", 1/2)]) = [2, 2, 3] ∧
    clampStep ["a", "x"] [[0, 1], [0, 2], [0, 3]] ("z", 1/2) =
      [[0, 1], [0, 2], [0, 3]] := by
  have h := studyModel_slope_quantile_clamp ["a", "x"] [[0, 1], [0, 2], [0, 3]]
    [("x", 1/2), ("z", 1/2)]
    (by simp)
    (by intro row hrow
        simp only [List.mem_cons, List.not_mem_nil, or_false] at hrow
        rcases hrow with rfl | rfl | rfl <;> rfl)
  refine ⟨?_, h.2.2 ("z", 1/2) (by simp)⟩
  have hmain := h.1 ("x", 1/2) (List.mem_cons_self _ _) (by simp)
  have hidx : List.indexOf "x" ["a", "x"] = 1 := rfl
  rw [hidx] at hmain
  rw [hmain]
  norm_num [column, npQuantile, List.insertionSort, List.orderedInsert]

theorem sortByDataId_rows_sorted (d : MRData) :
    List.Sorted (fun a b : DataRow => a.data_id ≤ b.data_id)
      (d.sortByDataId).rows := by
  haveI : IsTotal DataRow (fun a b : DataRow => a.data_id ≤ b.data_id) :=
    ⟨fun a b => le_total _ _⟩
  haveI : IsTrans DataRow (fun a b : DataRow => a.data_id ≤ b.data_id) :=
    ⟨fun _ _ _ h1 h2 => le_trans h1 h2⟩
  exact List.sorted_insertionSort _ _

theorem sortByDataId_rows_perm (d : MRData) :
    List.Perm (d.sortByDataId).rows d.rows := by
  exact List.perm_insertionSort _ _

theorem sortByDataId_perm_invariant (d d2 : MRData) (hperm : List.Perm d2.rows d.rows)
    (hnodup : (d.rows.map DataRow.data_id).Nodup) :
    d2.sortByDataId = d.sortByDataId := by
  haveI : IsAntisymm DataRow (fun a b : DataRow => a.data_id < b.data_id) :=
    ⟨fun _ _ h1 h2 => absurd h2 (lt_asymm h1)⟩
  have hkey : ∀ e : MRData, (e.rows.map DataRow.data_id).Nodup →
      List.Sorted (fun a b : DataRow => a.data_id < b.data_id)
        (e.sortByDataId).rows := by
    intro e he
    have hsorted := sortByDataId_rows_sorted e
    have hnd : ((e.sortByDataId).rows.map DataRow.data_id).Nodup := by
      rw [List.Perm.nodup_iff ((sortByDataId_rows_perm e).map DataRow.data_id)]
      exact he
    have hne : List.Pairwise (fun a b : DataRow => a.data_id ≠ b.data_id)
        (e.sortByDataId).rows := List.pairwise_map.mp hnd
    exact (hsorted.and hne).imp fun h => lt_of_le_of_ne h.1 h.2
  have hnodup2 : (d2.rows.map DataRow.data_id).Nodup := by
    rw [List.Perm.nodup_iff (hperm.map DataRow.data_id)]
    exact hnodup
  have hp : List.Perm (d2.sortByDataId).rows (d.sortByDataId).rows :=
    ((sortByDataId_rows_perm d2).trans hperm).trans
      (sortByDataId_rows_perm d).symm
  have h := List.eq_of_perm_of_sorted hp (hkey d2 hnodup2) (hkey d hnodup)
  unfold MRData.sortByDataId at h ⊢
  exact congrArg MRData.mk h

/-- C9: `result_to_df` sorts the given observation set by its internal row id
before predicting — the sorted set replaces the caller's data (the in-place
mutation, made explicit as the first returned component) — and the returned
table is built row-for-row from the sorted set (predictions on it, residuals
as observed minus predicted), so with distinct row ids the result is the same
for every row ordering the caller supplies. -/
theorem result_to_df_sorts_by_data_id (mo : Model) (d : MRData) :
    (result_to_df mo d).1 = d.sortByDataId ∧
    List.Sorted (· ≤ ·) (d.sortByDataId).data_id ∧
    ((result_to_df mo d).2 = (mo.predict (some d.sortByDataId)).map fun pred =>
      (⟨d.sortByDataId, pred,
        List.zipWith (fun a b => a - b) (d.sortByDataId).obs pred⟩ : ResultDf)) ∧
    (∀ d2 : MRData, List.Perm d2.rows d.rows → (d.rows.map DataRow.data_id).Nodup →
      result_to_df mo d2 = result_to_df mo d) := by
  refine ⟨rfl, ?_, ?_, ?_⟩
  · have := sortByDataId_rows_sorted d
    unfold MRData.data_id
    exact List.Pairwise.map _ (fun a b h => h) this
  · cases h : mo.predict (some d.sortByDataId) <;>
      simp [result_to_df, h, Option.bind]
  · intro d2 hperm hnodup
    unfold result_to_df
    rw [sortByDataId_perm_invariant d d2 hperm hnodup]

/-- C9 witness: reversing the concrete scenario's rows does not change the
exported result table, and the returned data component is the sorted set. -/
theorem result_to_df_sorts_by_data_id_witness :
    result_to_df (Model.study s4f) ⟨d4.rows.reverse⟩ =
      result_to_df (Model.study s4f) d4 ∧
    (result_to_df (Model.study s4f) d4).1 = d4.sortByDataId := by
  constructor
  · exact (result_to_df_sorts_by_data_id (Model.study s4f) d4).2.2.2
      ⟨d4.rows.reverse⟩ (List.reverse_perm d4.rows)
      (by norm_num [d4])
  · exact (result_to_df_sorts_by_data_id (Model.study s4f) d4).1

/-! ### Claim C1: the weighted least-squares solver -/


theorem mtv_eq_transpose_mul_weight {n k : ℕ} (mat : Matrix (Fin n) (Fin k) ℚ)
    (obs_se : Fin n → ℚ) :
    (Matrix.of fun (j : Fin k) (i : Fin n) => mat i j / obs_se i ^ 2) =
      mat.transpose * weightMatrix obs_se := by
  ext j i
  simp [weightMatrix, Matrix.mul_diagonal, Matrix.transpose_apply,
    div_eq_mul_inv, one_div]

theorem solve_ls_eq_ite {n k : ℕ} (mat : Matrix (Fin n) (Fin k) ℚ)
    (obs obs_se : Fin n → ℚ) :
    solve_ls mat obs obs_se =
      if (normalMat mat obs_se).det = 0 then none
      else some ((normalMat mat obs_se).det⁻¹ •
        (normalMat mat obs_se).adjugate.mulVec
          ((mat.transpose * weightMatrix obs_se).mulVec obs)) := by
  unfold solve_ls
  simp only []
  rw [mtv_eq_transpose_mul_weight mat obs_se]
  rfl



theorem normalMat_mulVec_solution {k : ℕ} (A : Matrix (Fin k) (Fin k) ℚ)
    (b : Fin k → ℚ) (hdet : A.det ≠ 0) :
    A.mulVec (A.det⁻¹ • A.adjugate.mulVec b) = b := by
  rw [Matrix.mulVec_smul, Matrix.mulVec_mulVec, Matrix.mul_adjugate,
    Matrix.smul_mulVec_assoc, Matrix.one_mulVec, smul_smul,
    inv_mul_cancel₀ hdet, one_smul]



theorem weightedRSS_expand {n k : ℕ} (mat : Matrix (Fin n) (Fin k) ℚ)
    (obs obs_se : Fin n → ℚ) (β γ : Fin k → ℚ)
    (hne : ∀ i, obs_se i ≠ 0)
    (hnorm : (normalMat mat obs_se).mulVec β =
      (mat.transpose * weightMatrix obs_se).mulVec obs) :
    weightedRSS mat obs obs_se γ = weightedRSS mat obs obs_se β +
      ∑ i, (mat.mulVec (γ - β) i / obs_se i) ^ 2 := by
  have hres : (mat.transpose * weightMatrix obs_se).mulVec
      (fun i => obs i - mat.mulVec β i) = 0 := by
    have h1 : (fun i => obs i - mat.mulVec β i) = obs - mat.mulVec β := rfl
    rw [h1, Matrix.mulVec_sub, Matrix.mulVec_mulVec]
    rw [show mat.transpose * weightMatrix obs_se * mat = normalMat mat obs_se
      from rfl, hnorm]
    exact sub_self _
  have happ1 : ∀ (v : Fin k → ℚ) (i : Fin n),
      mat.mulVec v i = ∑ j, mat i j * v j := by
    intro v i
    simp [Matrix.mulVec, Matrix.dotProduct]
  have happ2 : ∀ (v : Fin n → ℚ) (j : Fin k),
      (mat.transpose * weightMatrix obs_se).mulVec v j =
        ∑ i, (mat.transpose * weightMatrix obs_se) j i * v i := by
    intro v j
    simp [Matrix.mulVec, Matrix.dotProduct]
  have hentry : ∀ (i : Fin n) (j : Fin k),
      (mat.transpose * weightMatrix obs_se) j i = mat i j * (1 / obs_se i ^ 2) := by
    intro i j
    rw [weightMatrix, Matrix.mul_diagonal, Matrix.transpose_apply]
  have hcross : ∑ i, (1 / obs_se i ^ 2 * (obs i - mat.mulVec β i)) *
      mat.mulVec (γ - β) i = 0 := by
    have expand : ∀ i, (1 / obs_se i ^ 2 * (obs i - mat.mulVec β i)) *
        mat.mulVec (γ - β) i
        = ∑ j, (1 / obs_se i ^ 2 * (obs i - mat.mulVec β i)) *
            (mat i j * (γ - β) j) := by
      intro i
      rw [happ1 (γ - β) i, Finset.mul_sum]
    rw [Finset.sum_congr rfl fun i _ => expand i, Finset.sum_comm]
    have inner : ∀ j, (∑ i, (1 / obs_se i ^ 2 * (obs i - mat.mulVec β i)) *
        (mat i j * (γ - β) j))
        = ((mat.transpose * weightMatrix obs_se).mulVec
            (fun i => obs i - mat.mulVec β i)) j * (γ - β) j := by
      intro j
      rw [happ2 (fun i => obs i - mat.mulVec β i) j, Finset.sum_mul]
      refine Finset.sum_congr rfl fun i _ => ?_
      rw [hentry]
      ring
    rw [Finset.sum_congr rfl fun j _ => inner j, hres]
    simp
  have point : ∀ i, ((obs i - mat.mulVec γ i) / obs_se i) ^ 2
      = ((obs i - mat.mulVec β i) / obs_se i) ^ 2
        - 2 * ((1 / obs_se i ^ 2 * (obs i - mat.mulVec β i)) *
            mat.mulVec (γ - β) i)
        + (mat.mulVec (γ - β) i / obs_se i) ^ 2 := by
    intro i
    have hdiff : mat.mulVec (γ - β) i = mat.mulVec γ i - mat.mulVec β i := by
      rw [Matrix.mulVec_sub, Pi.sub_apply]
    rw [hdiff]
    have hs := hne i
    field_simp
    ring
  unfold weightedRSS
  rw [Finset.sum_congr rfl fun i _ => point i]
  rw [Finset.sum_add_distrib, Finset.sum_sub_distrib, ← Finset.mul_sum, hcross]
  ring



/-- C1 (amended): for every design matrix `M` (n×k), outcome vector `y` and
positive standard-error vector `s` such that `MᵀWM` with `W = diag(1/sᵢ²)` is
nonsingular, `solve_ls` returns a coefficient vector `β` of length `k`
satisfying the weighted normal equations `(MᵀWM)β = MᵀWy`, and this `β` is
the unique minimizer of the weighted residual sum of squares. -/
theorem solve_ls_weighted_normal_equations {n k : ℕ}
    (mat : Matrix (Fin n) (Fin k) ℚ) (obs obs_se : Fin n → ℚ)
    (hse : ∀ i, 0 < obs_se i) (hdet : (normalMat mat obs_se).det ≠ 0) :
    ∃ β : Fin k → ℚ, solve_ls mat obs obs_se = some β ∧
      (normalMat mat obs_se).mulVec β =
        (mat.transpose * weightMatrix obs_se).mulVec obs ∧
      (∀ γ, weightedRSS mat obs obs_se β ≤ weightedRSS mat obs obs_se γ) ∧
      (∀ γ, weightedRSS mat obs obs_se γ = weightedRSS mat obs obs_se β →
        γ = β) := by
  have hne : ∀ i, obs_se i ≠ 0 := fun i => ne_of_gt (hse i)
  refine ⟨(normalMat mat obs_se).det⁻¹ • (normalMat mat obs_se).adjugate.mulVec
    ((mat.transpose * weightMatrix obs_se).mulVec obs), ?_, ?_, ?_, ?_⟩
  · rw [solve_ls_eq_ite, if_neg hdet]
  · exact normalMat_mulVec_solution _ _ hdet
  · intro γ
    rw [weightedRSS_expand mat obs obs_se _ γ hne
      (normalMat_mulVec_solution _ _ hdet)]
    have h0 : (0:ℚ) ≤ ∑ i, (mat.mulVec (γ - ((normalMat mat obs_se).det⁻¹ •
        (normalMat mat obs_se).adjugate.mulVec
          ((mat.transpose * weightMatrix obs_se).mulVec obs))) i / obs_se i) ^ 2 :=
      Finset.sum_nonneg fun i _ => sq_nonneg _
    linarith
  · intro γ hγ
    rw [weightedRSS_expand mat obs obs_se _ γ hne
      (normalMat_mulVec_solution _ _ hdet)] at hγ
    have hzero : ∑ i, (mat.mulVec (γ - ((normalMat mat obs_se).det⁻¹ •
        (normalMat mat obs_se).adjugate.mulVec
          ((mat.transpose * weightMatrix obs_se).mulVec obs))) i / obs_se i) ^ 2
        = 0 := by linarith
    have hterm := (Finset.sum_eq_zero_iff_of_nonneg
      (fun i _ => sq_nonneg _)).mp hzero
    have hvec : mat.mulVec (γ - ((normalMat mat obs_se).det⁻¹ •
        (normalMat mat obs_se).adjugate.mulVec
          ((mat.transpose * weightMatrix obs_se).mulVec obs))) = 0 := by
      funext i
      have h1 := hterm i (Finset.mem_univ i)
      have h2 := (pow_eq_zero_iff two_ne_zero).mp h1
      rcases div_eq_zero_iff.mp h2 with h | h
      · exact h
      · exact absurd h (hne i)
    have hAz : (normalMat mat obs_se).mulVec (γ - ((normalMat mat obs_se).det⁻¹ •
        (normalMat mat obs_se).adjugate.mulVec
          ((mat.transpose * weightMatrix obs_se).mulVec obs))) = 0 := by
      have h3 : (mat.transpose * weightMatrix obs_se).mulVec
          (mat.mulVec (γ - ((normalMat mat obs_se).det⁻¹ •
            (normalMat mat obs_se).adjugate.mulVec
              ((mat.transpose * weightMatrix obs_se).mulVec obs)))) =
          (normalMat mat obs_se).mulVec (γ - ((normalMat mat obs_se).det⁻¹ •
            (normalMat mat obs_se).adjugate.mulVec
              ((mat.transpose * weightMatrix obs_se).mulVec obs))) :=
        Matrix.mulVec_mulVec _ (mat.transpose * weightMatrix obs_se) mat
      rw [← h3, hvec, Matrix.mulVec_zero]
    exact sub_eq_zero.mp (Matrix.eq_zero_of_mulVec_eq_zero hdet hAz)



/-- C1 counterexample: at the 1×1 zero design matrix with zero outcome and
unit (positive) standard error, `solve_ls` fails (returns `none`) instead of
returning a coefficient vector, even though the weighted normal equations are
satisfiable there (the zero vector solves them); the claim's unconditional
"returns a vector beta satisfying the weighted normal equations" is
therefore false on the code. -/
theorem solve_ls_singular_counterexample :
    (∀ i : Fin 1, (0:ℚ) < (fun _ : Fin 1 => (1:ℚ)) i) ∧
    solve_ls (Matrix.of fun (_ : Fin 1) (_ : Fin 1) => (0:ℚ))
      (fun _ => (0:ℚ)) (fun _ => (1:ℚ)) = none ∧
    (normalMat (Matrix.of fun (_ : Fin 1) (_ : Fin 1) => (0:ℚ))
        (fun _ => (1:ℚ))).mulVec (fun _ => (0:ℚ)) =
      ((Matrix.of fun (_ : Fin 1) (_ : Fin 1) => (0:ℚ)).transpose *
        weightMatrix (fun _ => (1:ℚ))).mulVec (fun _ => (0:ℚ)) := by
  refine ⟨fun i => one_pos, ?_, ?_⟩
  · rw [solve_ls_eq_ite, if_pos]
    rw [Matrix.det_fin_one]
    simp [normalMat, Matrix.mul_apply, weightMatrix]
  · rw [show (fun _ : Fin 1 => (0:ℚ)) = (0 : Fin 1 → ℚ) from rfl]
    rw [Matrix.mulVec_zero, Matrix.mulVec_zero]

/-- C1 witness: the amended theorem instantiated at the 1×1 system with unit
design column, outcome `2`, and unit standard error. -/
theorem solve_ls_weighted_normal_equations_witness :
    ∃ β : Fin 1 → ℚ,
      solve_ls (Matrix.of fun (_ : Fin 1) (_ : Fin 1) => (1:ℚ))
        (fun _ => (2:ℚ)) (fun _ => (1:ℚ)) = some β ∧
      (normalMat (Matrix.of fun (_ : Fin 1) (_ : Fin 1) => (1:ℚ))
          (fun _ => (1:ℚ))).mulVec β =
        ((Matrix.of fun (_ : Fin 1) (_ : Fin 1) => (1:ℚ)).transpose *
          weightMatrix (fun _ => (1:ℚ))).mulVec (fun _ => (2:ℚ)) ∧
      (∀ γ, weightedRSS (Matrix.of fun (_ : Fin 1) (_ : Fin 1) => (1:ℚ))
          (fun _ => (2:ℚ)) (fun _ => (1:ℚ)) β ≤
        weightedRSS (Matrix.of fun (_ : Fin 1) (_ : Fin 1) => (1:ℚ))
          (fun _ => (2:ℚ)) (fun _ => (1:ℚ)) γ) ∧
      (∀ γ, weightedRSS (Matrix.of fun (_ : Fin 1) (_ : Fin 1) => (1:ℚ))
          (fun _ => (2:ℚ)) (fun _ => (1:ℚ)) γ =
        weightedRSS (Matrix.of fun (_ : Fin 1) (_ : Fin 1) => (1:ℚ))
          (fun _ => (2:ℚ)) (fun _ => (1:ℚ)) β → γ = β) :=
  solve_ls_weighted_normal_equations _ _ _ (fun _ => one_pos)
    (by rw [Matrix.det_fin_one]
        norm_num [normalMat, weightMatrix, Matrix.mul_apply,
          Matrix.mul_diagonal, Matrix.transpose_apply, Fin.sum_univ_succ])

end GKModel
